import Mathlib

/-!
Verification of the record-processing core of the retro IC scraper
(`retro_ic_scraper.py`, re-used by `summarise.py`).

The Python functions are shallowly embedded as executable Lean
definitions: titles and keywords are `String`s, prices are `ℚ`
(Python floats restricted to the money amounts the code handles),
fallible parsers return `Option`.  Each definition carries a note
pointing at the Python function it embeds.
-/

namespace Retro

/-- Python `str.lower()`, restricted to the ASCII case mapping
(the catalog keywords and the titles of interest are ASCII). -/
def pyLower (s : String) : String := ⟨s.data.map Char.toLower⟩

/-- Does `n` start `h`? (helper for the substring test). -/
def leadsWith : List Char → List Char → Bool
  | [], _ => true
  | _ :: _, [] => false
  | a :: n, b :: h => a == b && leadsWith n h

/-- Python `needle in hay` substring containment, on char lists. -/
def subList : List Char → List Char → Bool
  | n, [] => leadsWith n []
  | n, b :: h => leadsWith n (b :: h) || subList n h

/-- Python `needle in hay` substring containment on strings. -/
def subStr (needle hay : String) : Bool := subList needle.data hay.data

/-- Ordered rule for classifying a listing into a variant
(Python dataclass `VariantRule`; the `include` field is named `inc`
here because `include` is a Lean keyword). -/
structure VariantRule where
  label : String
  inc : List String
  exclude : List String := []
deriving DecidableEq

/-- Chip family catalog entry (Python dataclass `ChipFamily`). -/
structure ChipFamily where
  name : String
  queries : List String
  exclude : List String
  must_match : List String
  variant_rules : List VariantRule
deriving DecidableEq

/-- Python module constant `GLOBAL_EXCLUSIONS`. -/
def GLOBAL_EXCLUSIONS : List String :=
  ["replacement", "replica", "clone", "fpga", "emulator"]

/-- Body of the rule test inside `classify_variant`:
`has_include and not has_exclude` for one rule, on the lowered title. -/
def ruleMatches (titleLower : String) (r : VariantRule) : Bool :=
  (r.inc.any fun kw => subStr kw titleLower) &&
    !(r.exclude.any fun kw => subStr kw titleLower)

/-- The rule loop of `classify_variant` (lines 445-450). -/
def classifyGo (titleLower : String) : List VariantRule → String
  | [] => "other/mixed"
  | r :: rest =>
      if ruleMatches titleLower r then r.label else classifyGo titleLower rest

/-- Python `classify_variant(title, rules)` (lines 442-450). -/
def classify_variant (title : String) (rules : List VariantRule) : String :=
  classifyGo (pyLower title) rules

/-- The labelling expression at the classifier call sites
(`print_summary` line 667, and the same expression in
`summarise.write_summary_csv`):
`classify_variant(item.title, rules) if rules else "(all)"`. -/
def variant_label (title : String) (rules : List VariantRule) : String :=
  if rules.isEmpty then "(all)" else classify_variant title rules

/-- Python `is_excluded(title, family)` (lines 417-426): the two
early-return loops collapse to a disjunction of `any`s. -/
def is_excluded (title : String) (family : ChipFamily) : Bool :=
  let titleLower := pyLower title
  (GLOBAL_EXCLUSIONS.any fun kw => subStr kw titleLower) ||
    (family.exclude.any fun kw => subStr kw titleLower)

/-- Python `is_relevant(title, family)` (lines 429-439). -/
def is_relevant (title : String) (family : ChipFamily) : Bool :=
  if family.must_match.isEmpty then true
  else
    let titleLower := pyLower title
    family.must_match.any fun kw => subStr kw titleLower

/-- The title gate of `parse_listings` (lines 476-481: a card survives
the keyword filtering iff it is not excluded and is relevant). -/
def title_accepted (title : String) (family : ChipFamily) : Bool :=
  !(is_excluded title family) && is_relevant title family

/-- Python dataclass `SoldListing`; `price` is modelled as `ℚ`. -/
structure SoldListing where
  chip_family : String
  title : String
  price : ℚ
  currency : String
  date_sold : String
  ebay_site : String
  search_query : String
deriving DecidableEq

/-- The identity key taken by `dedup_listings` (line 556). -/
def listingKey (r : SoldListing) : String × String × ℚ × String × String :=
  (r.chip_family, r.title, r.price, r.date_sold, r.ebay_site)

/-- The loop of `dedup_listings` with its `seen` set (membership in a
Python `set` is modelled by membership in the list of keys added so
far). -/
def dedupGo (seen : List (String × String × ℚ × String × String)) :
    List SoldListing → List SoldListing
  | [] => []
  | x :: xs =>
      if listingKey x ∈ seen then dedupGo seen xs
      else x :: dedupGo (listingKey x :: seen) xs

/-- Python `dedup_listings(listings)` (lines 552-560). -/
def dedup_listings (listings : List SoldListing) : List SoldListing :=
  dedupGo [] listings

/-- Result shape of `_calc_stats` (the dict it returns). -/
structure Stats where
  count : ℕ
  mean : ℚ
  median : ℚ
  q1 : ℚ
  q3 : ℚ
  min : ℚ
  max : ℚ
deriving DecidableEq

/-- Python `_calc_stats(items)` (lines 590-602).  `sorted` is modelled
by `List.insertionSort`; the Python function is only ever called on
non-empty groups (it throws on an empty one), the out-of-range
defaults of `getD`/`headD`/`getLastD` are never exercised there. -/
def _calc_stats (items : List SoldListing) : Stats :=
  let prices := (items.map SoldListing.price).insertionSort (· ≤ ·)
  let n := prices.length
  { count := n
    mean := prices.sum / (n : ℚ)
    median := prices.getD (n / 2) 0
    q1 := if 4 ≤ n then prices.getD (n / 4) 0 else prices.headD 0
    q3 := if 4 ≤ n then prices.getD (3 * n / 4) 0 else prices.getLastD 0
    min := prices.headD 0
    max := prices.getLastD 0 }

/-- The record filter of `summarise.load_and_filter` (keep a record iff
`is_relevant` holds and `is_excluded` does not). -/
def filter_records (family : ChipFamily) (recs : List SoldListing) :
    List SoldListing :=
  recs.filter fun r => is_relevant r.title family && !(is_excluded r.title family)

/-- One variant group of `print_summary`/`write_summary_csv`: the
deduplicated, filtered records labelled `label`, with their statistics
(`none` models the absence of the group from `variant_groups`). -/
def pipeline (family : ChipFamily) (recs : List SoldListing) (label : String) :
    Option Stats :=
  let uniq := dedup_listings (filter_records family recs)
  let group := uniq.filter fun r => variant_label r.title family.variant_rules == label
  if group.isEmpty then none else some (_calc_stats group)

/-! ### Price parser (`parse_price`, `PRICE_RE`, `CURRENCY_SYMBOLS`) -/

/-- Python module constant `CURRENCY_SYMBOLS` (line 280). -/
def CURRENCY_SYMBOLS : List (Char × String) :=
  [('$', "USD"), ('£', "GBP"), ('€', "EUR")]

/-- `CURRENCY_SYMBOLS.get(symbol, symbol)` (line 395). -/
def currencyOf (c : Char) : String :=
  ((CURRENCY_SYMBOLS.lookup c).getD ⟨[c]⟩)

/-- The currency-symbol class `[$£€]` of `PRICE_RE`. -/
def isCur (c : Char) : Bool := c == '$' || c == '£' || c == '€'

/-- Python regex `\s` (the ASCII whitespace characters). -/
def pySpaceChar (c : Char) : Bool :=
  c == ' ' || c == '\t' || c == '\n' || c == '\r' ||
    c == '\x0b' || c == '\x0c'

/-- The amount class `[\d,]` of `PRICE_RE`. -/
def isAmtChar (c : Char) : Bool := c.isDigit || c == ','

/-- Match `[\d,]+(?:\.\d{1,2})?` at the head of `cs`, returning the
matched characters.  The `[\d,]+` run is maximal (the character after
it is never in the class, so the regex engine never shrinks it) and the
optional fraction takes two digits if it can, else one, else nothing. -/
def amtFrom (cs : List Char) : Option (List Char) :=
  let digits := cs.takeWhile isAmtChar
  if digits.isEmpty then none
  else
    match cs.dropWhile isAmtChar with
    | '.' :: rest =>
        match rest with
        | d1 :: d2 :: _ =>
            if d1.isDigit && d2.isDigit then some (digits ++ ['.', d1, d2])
            else if d1.isDigit then some (digits ++ ['.', d1])
            else some digits
        | [d1] => if d1.isDigit then some (digits ++ ['.', d1]) else some digits
        | [] => some digits
    | _ => some digits

/-- Match `PRICE_RE = ([$£€])\s?([\d,]+(?:\.\d{1,2})?)` at the head of
`cs`, returning the two capture groups.  When the character after the
symbol is whitespace, `\s?` must consume it (dropping it instead would
leave `[\d,]+` to match that same whitespace character, which fails),
so no backtracking case is needed. -/
def priceMatchAt (cs : List Char) : Option (Char × List Char) :=
  match cs with
  | [] => none
  | c :: rest =>
      if isCur c then
        match rest with
        | [] => none
        | w :: r2 =>
            if pySpaceChar w then
              match amtFrom r2 with
              | some a => some (c, a)
              | none => none
            else
              match amtFrom rest with
              | some a => some (c, a)
              | none => none
      else none

/-- `PRICE_RE.search`: leftmost position at which the pattern matches. -/
def priceSearch : List Char → Option (Char × List Char)
  | [] => none
  | c :: rest =>
      match priceMatchAt (c :: rest) with
      | some r => some r
      | none => priceSearch rest

/-- Digit characters to the natural number they spell. -/
def digitsToNat (ds : List Char) : ℕ :=
  ds.foldl (fun acc c => 10 * acc + (c.toNat - 48)) 0

/-- Python `float(s)`, restricted to the character material that can
reach it here (digits, `.` and `,`): an optional integer part, an
optional single dot and fraction, at least one digit in total; a comma
(or anything else) raises `ValueError`, modelled as `none`. -/
def pyFloat (cs : List Char) : Option ℚ :=
  if (cs.all fun c => c.isDigit || c == '.') && cs.count '.' ≤ 1 &&
      cs.any Char.isDigit then
    match cs.dropWhile Char.isDigit with
    | [] => some (digitsToNat cs : ℚ)
    | '.' :: frac =>
        some ((digitsToNat (cs.takeWhile Char.isDigit) : ℚ) +
          (digitsToNat frac : ℚ) / (10 ^ frac.length : ℚ))
    | _ => none
  else none

/-- Python `text.replace(",", "")` on char lists. -/
def stripCommas (cs : List Char) : List Char := cs.filter (· != ',')

/-- Python `parse_price(text)` (lines 389-400). -/
def parse_price (text : String) : Option (ℚ × String) :=
  let t := stripCommas text.data
  match priceSearch t with
  | none => none
  | some (sym, amt) =>
      match pyFloat amt with
      | none => none
      | some v => some (v, currencyOf sym)

/-! ### Date parser (`parse_date`, `DATE_PATTERNS`, `DATE_FORMATS`)

The four `DATE_PATTERNS` regexes are embedded as matchers over char
lists; `re.search` is leftmost-match.  Inside the patterns, every `\s+`
is followed by a token a whitespace character cannot start, so maximal
munch is exact; `,?` is followed by `\s+`, so consuming a present comma
is forced; `\d{1,2}` tries two digits and falls back to one. -/

/-- Python regex `\w` (ASCII letters, digits and underscore). -/
def isWordChar (c : Char) : Bool := c.isAlphanum || c == '_'

/-- `\s+`: maximal non-empty run of whitespace; `(consumed, rest)`. -/
def ws1 (cs : List Char) : Option (List Char × List Char) :=
  let a := cs.takeWhile pySpaceChar
  if a.isEmpty then none else some (a, cs.dropWhile pySpaceChar)

/-- `\w{3}`: exactly three word characters. -/
def w3 : List Char → Option (List Char × List Char)
  | a :: b :: c :: rest =>
      if isWordChar a && isWordChar b && isWordChar c then
        some ([a, b, c], rest)
      else none
  | _ => none

/-- `\d{4}`: exactly four digits. -/
def dig4 : List Char → Option (List Char × List Char)
  | a :: b :: c :: d :: rest =>
      if a.isDigit && b.isDigit && c.isDigit && d.isDigit then
        some ([a, b, c, d], rest)
      else none
  | _ => none

/-- Inner part `\s+\d{4}` shared by the two tails below. -/
def wsYear (cs : List Char) : Option (List Char) :=
  match ws1 cs with
  | none => none
  | some (sp, r) =>
      match dig4 r with
      | none => none
      | some (yr, _) => some (sp ++ yr)

/-- Tail `,?\s+\d{4}` after the day in patterns 1 and 4. -/
def tailCommaWsYear (cs : List Char) : Option (List Char) :=
  match cs with
  | ',' :: r => (wsYear r).map (',' :: ·)
  | _ => wsYear cs

/-- Tail `\s+\w{3}\s+\d{4}` after the day in patterns 2 and 3. -/
def tailWsMonWsYear (cs : List Char) : Option (List Char) :=
  match ws1 cs with
  | none => none
  | some (sp1, r1) =>
      match w3 r1 with
      | none => none
      | some (w, r2) =>
          match wsYear r2 with
          | none => none
          | some t => some (sp1 ++ w ++ t)

/-- `\d{1,2}` followed by a tail matcher, with the two-then-one digit
fallback of the greedy bounded quantifier. -/
def dayThen (tail : List Char → Option (List Char)) :
    List Char → Option (List Char)
  | d1 :: d2 :: r3 =>
      if d1.isDigit && d2.isDigit then
        match tail r3 with
        | some t => some (d1 :: d2 :: t)
        | none => (tail (d2 :: r3)).map (d1 :: ·)
      else if d1.isDigit then (tail (d2 :: r3)).map (d1 :: ·)
      else none
  | [d1] => if d1.isDigit then (tail []).map (d1 :: ·) else none
  | [] => none

/-- Group `\w{3}\s+\d{1,2},?\s+\d{4}` (patterns 1 and 4). -/
def core1 (cs : List Char) : Option (List Char) :=
  match w3 cs with
  | none => none
  | some (w, r1) =>
      match ws1 r1 with
      | none => none
      | some (sp, r2) =>
          (dayThen tailCommaWsYear r2).map fun t => w ++ sp ++ t

/-- Group `\d{1,2}\s+\w{3}\s+\d{4}` (patterns 2 and 3). -/
def core2 (cs : List Char) : Option (List Char) :=
  dayThen tailWsMonWsYear cs

/-- Literal `Sold` followed by `\s+` (patterns 1 and 2); returns the
remainder on which the capture group must match. -/
def soldMarker (cs : List Char) : Option (List Char) :=
  match cs with
  | 'S' :: 'o' :: 'l' :: 'd' :: r => (ws1 r).map (·.2)
  | _ => none

/-- `re.search`: try the matcher at each start position, leftmost
first, returning the capture group of the first success. -/
def searchWith (m : List Char → Option (List Char)) :
    List Char → Option (List Char)
  | [] => m []
  | c :: rest =>
      match m (c :: rest) with
      | some g => some g
      | none => searchWith m rest

/-- `DATE_PATTERNS[0] = Sold\s+(\w{3}\s+\d{1,2},?\s+\d{4})`. -/
def datePat1 : List Char → Option (List Char) :=
  searchWith fun cs => (soldMarker cs).bind core1

/-- `DATE_PATTERNS[1] = Sold\s+(\d{1,2}\s+\w{3}\s+\d{4})`. -/
def datePat2 : List Char → Option (List Char) :=
  searchWith fun cs => (soldMarker cs).bind core2

/-- `DATE_PATTERNS[2] = (\d{1,2}\s+\w{3}\s+\d{4})`. -/
def datePat3 : List Char → Option (List Char) :=
  searchWith core2

/-- `DATE_PATTERNS[3] = (\w{3}\s+\d{1,2},?\s+\d{4})`. -/
def datePat4 : List Char → Option (List Char) :=
  searchWith core1

/-- Python module constant `DATE_PATTERNS` (lines 284-289), as the
list of the four searchers. -/
def DATE_PATTERNS : List (List Char → Option (List Char)) :=
  [datePat1, datePat2, datePat3, datePat4]

/-- `strptime` directive `%b`: case-insensitive month abbreviation. -/
def monthNum (a b c : Char) : Option ℕ :=
  match [a.toLower, b.toLower, c.toLower] with
  | ['j', 'a', 'n'] => some 1
  | ['f', 'e', 'b'] => some 2
  | ['m', 'a', 'r'] => some 3
  | ['a', 'p', 'r'] => some 4
  | ['m', 'a', 'y'] => some 5
  | ['j', 'u', 'n'] => some 6
  | ['j', 'u', 'l'] => some 7
  | ['a', 'u', 'g'] => some 8
  | ['s', 'e', 'p'] => some 9
  | ['o', 'c', 't'] => some 10
  | ['n', 'o', 'v'] => some 11
  | ['d', 'e', 'c'] => some 12
  | _ => none

/-- `%b` on an input list. -/
def pyMon : List Char → Option (ℕ × List Char)
  | a :: b :: c :: r =>
      match monthNum a b c with
      | some m => some (m, r)
      | none => none
  | _ => none

/-- `strptime` directive `%d`, whose regex is
`(3[01]|[12]\d|0[1-9]|[1-9])`; alternatives are tried in order (in the
formats here the character after the day can never extend a shorter
alternative into a longer viable one, so no cross-alternative
backtracking is needed). -/
def pyDay : List Char → Option (ℕ × List Char)
  | a :: b :: rest =>
      if a == '3' && (b == '0' || b == '1') then
        some (30 + (b.toNat - 48), rest)
      else if (a == '1' || a == '2') && b.isDigit then
        some ((a.toNat - 48) * 10 + (b.toNat - 48), rest)
      else if a == '0' && b.isDigit && b != '0' then
        some (b.toNat - 48, rest)
      else if a.isDigit && a != '0' then
        some (a.toNat - 48, b :: rest)
      else none
  | [a] =>
      if a.isDigit && a != '0' then some (a.toNat - 48, []) else none
  | [] => none

/-- `strptime` directive `%Y`: exactly four digits. -/
def pyYear (cs : List Char) : Option (ℕ × List Char) :=
  match dig4 cs with
  | some (ds, r) => some (digitsToNat ds, r)
  | none => none

/-- Gregorian leap year (Python `calendar.isleap`). -/
def isLeap (y : ℕ) : Bool := y % 4 == 0 && (y % 100 != 0 || y % 400 == 0)

/-- Days in a month (as validated by `datetime.date`). -/
def daysInMonth (y m : ℕ) : ℕ :=
  if m == 2 then (if isLeap y then 29 else 28)
  else if m == 4 || m == 6 || m == 9 || m == 11 then 30
  else 31

/-- The validation `datetime(year, month, day)` performs
(`MINYEAR = 1`, `MAXYEAR = 9999`); a `ValueError` is `none`. -/
def mkDate (y m d : ℕ) : Option (ℕ × ℕ × ℕ) :=
  if 1 ≤ y && y ≤ 9999 && 1 ≤ m && m ≤ 12 && 1 ≤ d && d ≤ daysInMonth y m
  then some (y, m, d) else none

/-- Literal `,` in a `strptime` format string. -/
def litComma : List Char → Option (List Char)
  | ',' :: r => some r
  | _ => none

/-- `datetime.strptime(raw, "%b %d, %Y")`: the whole input must be
consumed (`unconverted data remains` otherwise); whitespace runs in the
format match `\s+`, the comma is literal. -/
def fmtMonDayCommaYear (cs : List Char) : Option (ℕ × ℕ × ℕ) :=
  (pyMon cs).bind fun mr =>
    (ws1 mr.2).bind fun s1 =>
      (pyDay s1.2).bind fun dr =>
        (litComma dr.2).bind fun r4 =>
          (ws1 r4).bind fun s2 =>
            (pyYear s2.2).bind fun yr =>
              if yr.2 = [] then mkDate yr.1 mr.1 dr.1 else none

/-- `datetime.strptime(raw, "%b %d %Y")`. -/
def fmtMonDayYear (cs : List Char) : Option (ℕ × ℕ × ℕ) :=
  (pyMon cs).bind fun mr =>
    (ws1 mr.2).bind fun s1 =>
      (pyDay s1.2).bind fun dr =>
        (ws1 dr.2).bind fun s2 =>
          (pyYear s2.2).bind fun yr =>
            if yr.2 = [] then mkDate yr.1 mr.1 dr.1 else none

/-- `datetime.strptime(raw, "%d %b %Y")`. -/
def fmtDayMonYear (cs : List Char) : Option (ℕ × ℕ × ℕ) :=
  (pyDay cs).bind fun dr =>
    (ws1 dr.2).bind fun s1 =>
      (pyMon s1.2).bind fun mr =>
        (ws1 mr.2).bind fun s2 =>
          (pyYear s2.2).bind fun yr =>
            if yr.2 = [] then mkDate yr.1 mr.1 dr.1 else none

/-- The inner `for fmt in DATE_FORMATS` loop (lines 408-413), on the
comma-free `raw`: first format that parses wins. -/
def tryFormats (cs : List Char) : Option (ℕ × ℕ × ℕ) :=
  match fmtMonDayCommaYear cs with
  | some r => some r
  | none =>
      match fmtMonDayYear cs with
      | some r => some r
      | none => fmtDayMonYear cs

/-- `%02d` zero-padded decimal (exact for `n < 100`). -/
def pad2 (n : ℕ) : List Char :=
  [Nat.digitChar (n / 10 % 10), Nat.digitChar (n % 10)]

/-- `%Y` zero-padded four-digit year (exact for `n < 10000`). -/
def pad4 (n : ℕ) : List Char :=
  [Nat.digitChar (n / 1000 % 10), Nat.digitChar (n / 100 % 10),
    Nat.digitChar (n / 10 % 10), Nat.digitChar (n % 10)]

/-- `dt.strftime("%Y-%m-%d")` (line 411). -/
def isoFormat (y m d : ℕ) : String :=
  ⟨pad4 y ++ '-' :: (pad2 m ++ '-' :: pad2 d)⟩

/-- `m.group(1).strip().replace(",", "")` (line 407). -/
def cleanRaw (g : List Char) : List Char :=
  (((g.dropWhile pySpaceChar).reverse.dropWhile pySpaceChar).reverse).filter
    (· != ',')

/-- The outer `for pattern in DATE_PATTERNS` loop of `parse_date`:
if a pattern matches but every format fails, the next pattern is
tried; if no pattern yields a parse, the empty string is returned. -/
def parseDateGo : List (List Char → Option (List Char)) → List Char → String
  | [], _ => ""
  | p :: ps, cs =>
      match p cs with
      | none => parseDateGo ps cs
      | some g =>
          match tryFormats (cleanRaw g) with
          | some (y, m, d) => isoFormat y m d
          | none => parseDateGo ps cs

/-- Python `parse_date(text)` (lines 403-414). -/
def parse_date (text : String) : String :=
  parseDateGo DATE_PATTERNS text.data

/-- Shape check: is `s` a ten-character `DDDD-DD-DD` digit string
(ISO 8601 calendar date shape)? -/
def isIsoShape (s : String) : Bool :=
  match s.data with
  | [a, b, c, d, e, f, g, h, i, j] =>
      a.isDigit && b.isDigit && c.isDigit && d.isDigit && e == '-' &&
        f.isDigit && g.isDigit && h == '-' && i.isDigit && j.isDigit
  | _ => false

/-! ### Specification-side definitions (for refinement claims) -/

/-- Specification-side deduplication, following the claim's words:
keep a record exactly when no earlier record of the original list
carries the same identity key (the accumulator holds the keys of all
records already passed, kept or dropped). -/
def specFirstOcc (prev : List (String × String × ℚ × String × String)) :
    List SoldListing → List SoldListing
  | [] => []
  | x :: xs =>
      if listingKey x ∈ prev then specFirstOcc (listingKey x :: prev) xs
      else x :: specFirstOcc (listingKey x :: prev) xs

/-- Specification-side `dedup`: first occurrence of each key is kept. -/
def spec_dedup (l : List SoldListing) : List SoldListing := specFirstOcc [] l

/-- A listing that carries only a price (the other fields are fixed);
used to state the concrete aggregator example. -/
def priced (p : ℚ) : SoldListing := ⟨"sid", "t", p, "USD", "", "com", "q"⟩

/-! ### Helper lemmas -/

/-- The rule loop returns the label of the first matching rule. -/
lemma classifyGo_eq_find (tl : String) (rules : List VariantRule) :
    classifyGo tl rules =
      (((rules.find? (ruleMatches tl)).map VariantRule.label).getD "other/mixed") := by
  induction rules with
  | nil => rfl
  | cons r rest ih =>
      by_cases h : ruleMatches tl r
      · simp [classifyGo, h, List.find?_cons_of_pos]
      · simp only [Bool.not_eq_true] at h
        simp [classifyGo, h, List.find?_cons_of_neg]
        exact ih

/-- If no rule matches, the rule loop falls through to `other/mixed`. -/
lemma classifyGo_no_match (tl : String) (rules : List VariantRule)
    (h : ∀ r ∈ rules, ruleMatches tl r = false) :
    classifyGo tl rules = "other/mixed" := by
  induction rules with
  | nil => rfl
  | cons r rest ih =>
      simp [classifyGo, h r (List.mem_cons_self r rest)]
      exact ih fun r' hr' => h r' (List.mem_cons_of_mem r hr')

/-! ### Claims C1, C2, C3 -/

/-- C1: `classify_variant` evaluates the rules strictly in declaration
order and returns the label of the first rule for which at least one
include substring occurs in the lowercased title and no exclude
substring occurs (formalised via `List.find?`); in particular, with
rules `A = ("A", include {"391081"})` and
`B = ("B", include {"8373"}, exclude {"391081"})`, every title
containing both `"8373"` and `"391081"` classifies as `"A"`. -/
theorem c1_classify_first_match :
    (∀ (tl : String) (r : VariantRule),
      ruleMatches tl r = true ↔
        ((∃ kw ∈ r.inc, subStr kw tl = true) ∧
          ∀ kw ∈ r.exclude, subStr kw tl = false)) ∧
    (∀ (title : String) (rules : List VariantRule),
      classify_variant title rules =
        (((rules.find? (ruleMatches (pyLower title))).map
          VariantRule.label).getD "other/mixed")) ∧
    (∀ title : String,
      subStr "8373" (pyLower title) = true →
      subStr "391081" (pyLower title) = true →
      classify_variant title
        [⟨"A", ["391081"], []⟩, ⟨"B", ["8373"], ["391081"]⟩] = "A") := by
  refine ⟨?_, ?_, ?_⟩
  · intro tl r
    simp [ruleMatches, List.any_eq_true]
  · intro title rules
    exact classifyGo_eq_find (pyLower title) rules
  · intro title h73 h81
    simp [classify_variant, classifyGo, ruleMatches, h81]

/-- C1 witness: a concrete title containing both `"8373"` and
`"391081"` classifies as `"A"`. -/
theorem c1_witness :
    classify_variant "CSG 8373 391081 Super Denise"
      [⟨"A", ["391081"], []⟩, ⟨"B", ["8373"], ["391081"]⟩] = "A" :=
  c1_classify_first_match.2.2 "CSG 8373 391081 Super Denise"
    (by decide) (by decide)

/-- C2: the classifier call sites label a listing with the sentinel
`"(all)"` (a single undifferentiated bucket, distinct from
`"other/mixed"`) whenever the category has an empty rule list, and with
`"other/mixed"` when the rule list is non-empty but no rule matches. -/
theorem c2_variant_label_sentinels :
    (∀ title : String, variant_label title [] = "(all)") ∧
    ("(all)" ≠ "other/mixed") ∧
    (∀ (title : String) (rules : List VariantRule), rules ≠ [] →
      (∀ r ∈ rules, ruleMatches (pyLower title) r = false) →
      variant_label title rules = "other/mixed") := by
  refine ⟨fun _ => rfl, by decide, ?_⟩
  intro title rules hne h
  rw [variant_label, if_neg (by simpa using hne)]
  exact classifyGo_no_match (pyLower title) rules h

/-- C2 witness: on a concrete title, the empty rule list yields the
`"(all)"` sentinel while a non-empty non-matching rule list yields
`"other/mixed"`. -/
theorem c2_witness :
    variant_label "Amiga Agnus chip" [] = "(all)" ∧
    variant_label "Amiga Agnus chip" [⟨"6581", ["6581"], []⟩] = "other/mixed" :=
  ⟨c2_variant_label_sentinels.1 "Amiga Agnus chip",
    c2_variant_label_sentinels.2.2 "Amiga Agnus chip" [⟨"6581", ["6581"], []⟩]
      (by decide) (by decide)⟩

/-- C3: a listing passes the title filter iff `is_relevant` is true and
`is_excluded` is false; `is_relevant` is true exactly when the must-match
list is empty or some must-match keyword is a substring of the lowered
title; `is_excluded` is true exactly when some global or
category-specific exclusion keyword is a substring of the lowered title
(so an exclusion hit rejects the listing even when a must-match keyword
is present). -/
theorem c3_filter_accept_iff :
    ∀ (title : String) (family : ChipFamily),
      (title_accepted title family = true ↔
        (is_relevant title family = true ∧ is_excluded title family = false)) ∧
      (is_relevant title family = true ↔
        (family.must_match = [] ∨
          ∃ kw ∈ family.must_match, subStr kw (pyLower title) = true)) ∧
      (is_excluded title family = true ↔
        ((∃ kw ∈ GLOBAL_EXCLUSIONS, subStr kw (pyLower title) = true) ∨
          ∃ kw ∈ family.exclude, subStr kw (pyLower title) = true)) := by
  intro title family
  refine ⟨?_, ?_, ?_⟩
  · rw [title_accepted]
    cases h1 : is_excluded title family <;>
      cases h2 : is_relevant title family <;> simp
  · rw [is_relevant]
    cases h : family.must_match.isEmpty
    · rw [if_neg (by simp [h])]
      simp [List.any_eq_true]
      intro he
      rw [he] at h
      simp at h
    · simp [List.isEmpty_iff.1 h]
  · rw [is_excluded]
    simp [List.any_eq_true]

/-! ### Dedup lemmas and claims C5, C8, C9 -/

/-- The dedup loop agrees with the spec-side loop whenever the two
`seen` accumulators hold the same key sets (kept-only vs all-passed). -/
lemma dedupGo_eq_specFirstOcc :
    ∀ (l : List SoldListing) (s1 s2 : List (String × String × ℚ × String × String)),
      (∀ k, k ∈ s1 ↔ k ∈ s2) → dedupGo s1 l = specFirstOcc s2 l := by
  intro l
  induction l with
  | nil => intro _ _ _; rfl
  | cons x xs ih =>
      intro s1 s2 h
      by_cases hk : listingKey x ∈ s1
      · rw [dedupGo, if_pos hk, specFirstOcc, if_pos ((h _).1 hk)]
        exact ih s1 (listingKey x :: s2) fun k =>
          ⟨fun hh => List.mem_cons_of_mem _ ((h k).1 hh),
            fun hh => (List.mem_cons.1 hh).elim (fun e => e ▸ hk) ((h k).2)⟩
      · rw [dedupGo, if_neg hk, specFirstOcc, if_neg fun c => hk ((h _).2 c)]
        exact congrArg (x :: ·) (ih _ _ fun k => by
          simp only [List.mem_cons, h k])

/-- The dedup loop output is a sublist of its input. -/
lemma dedupGo_sublist :
    ∀ (l : List SoldListing) (s : List (String × String × ℚ × String × String)),
      (dedupGo s l).Sublist l := by
  intro l
  induction l with
  | nil => intro _; exact List.Sublist.refl []
  | cons x xs ih =>
      intro s
      rw [dedupGo]
      by_cases hk : listingKey x ∈ s
      · rw [if_pos hk]; exact (ih s).cons x
      · rw [if_neg hk]; exact (ih _).cons₂ x

/-- Running the dedup loop over its own output changes nothing. -/
lemma dedupGo_idem :
    ∀ (l : List SoldListing) (s : List (String × String × ℚ × String × String)),
      dedupGo s (dedupGo s l) = dedupGo s l := by
  intro l
  induction l with
  | nil => intro _; rfl
  | cons x xs ih =>
      intro s
      by_cases hk : listingKey x ∈ s
      · rw [dedupGo, if_pos hk, ih]
      · rw [dedupGo, if_neg hk, dedupGo, if_neg hk, ih]

/-- An adjacent duplicate appended after any block is dropped. -/
lemma dedupGo_append_dup :
    ∀ (a : List SoldListing) (s : List (String × String × ℚ × String × String))
      (r : SoldListing),
      dedupGo s (a ++ [r, r]) = dedupGo s (a ++ [r]) := by
  intro a
  induction a with
  | nil =>
      intro s r
      by_cases hk : listingKey r ∈ s
      · simp [dedupGo, hk]
      · simp [dedupGo, hk]
  | cons x xs ih =>
      intro s r
      by_cases hk : listingKey x ∈ s
      · simp only [List.cons_append, dedupGo, if_pos hk]; exact ih s r
      · simp only [List.cons_append, dedupGo, if_neg hk]
        exact congrArg (x :: ·) (ih _ r)

/-- C5: `dedup_listings` is order-preserving (its output is a sublist
of its input) and keeps exactly the first occurrence of each identity
key `(category, title, price, date_sold, site)`: it coincides with the
spec-side first-occurrence filter, and two records differing only in
`search_query` collapse to the first one. -/
theorem c5_dedup_first_occurrence :
    (∀ l : List SoldListing, dedup_listings l = spec_dedup l) ∧
    (∀ l : List SoldListing, (dedup_listings l).Sublist l) ∧
    (∀ r1 r2 : SoldListing, listingKey r1 = listingKey r2 →
      dedup_listings [r1, r2] = [r1]) := by
  refine ⟨?_, ?_, ?_⟩
  · intro l
    exact dedupGo_eq_specFirstOcc l [] [] fun k => Iff.rfl
  · intro l
    exact dedupGo_sublist l []
  · intro r1 r2 h
    simp [dedup_listings, dedupGo, ← h]

/-- C5 witness: two concrete records identical in the identity key but
with different `search_query` values collapse to the first. -/
theorem c5_witness :
    dedup_listings
      [⟨"sid", "MOS 6581 SID", 50, "USD", "2024-01-05", "com", "MOS 6581 SID"⟩,
        ⟨"sid", "MOS 6581 SID", 50, "USD", "2024-01-05", "com", "6581 sound chip"⟩] =
      [⟨"sid", "MOS 6581 SID", 50, "USD", "2024-01-05", "com", "MOS 6581 SID"⟩] :=
  c5_dedup_first_occurrence.2.2
    ⟨"sid", "MOS 6581 SID", 50, "USD", "2024-01-05", "com", "MOS 6581 SID"⟩
    ⟨"sid", "MOS 6581 SID", 50, "USD", "2024-01-05", "com", "6581 sound chip"⟩
    rfl

/-- C8: `dedup_listings` is idempotent. -/
theorem c8_dedup_idempotent :
    ∀ l : List SoldListing, dedup_listings (dedup_listings l) = dedup_listings l :=
  fun l => dedupGo_idem l []

/-- C9: appending the same record twice instead of once to the input of
the Filter→Classify→Dedup→Aggregate pipeline yields identical
per-variant statistics. -/
theorem c9_pipeline_duplicate_invariant :
    ∀ (family : ChipFamily) (l : List SoldListing) (r : SoldListing)
      (label : String),
      pipeline family (l ++ [r, r]) label = pipeline family (l ++ [r]) label := by
  intro family l r label
  unfold pipeline filter_records
  rw [List.filter_append, List.filter_append]
  by_cases h : (is_relevant r.title family && !(is_excluded r.title family)) = true
  · simp only [List.filter_cons, h, if_pos, List.filter_nil]
    rw [show ∀ x y : List SoldListing, x = y →
        (if x.isEmpty then (none : Option Stats) else some (_calc_stats x)) =
          (if y.isEmpty then none else some (_calc_stats y)) from
      fun x y e => e ▸ rfl]
    rw [dedup_listings, dedup_listings, dedupGo_append_dup]
  · rw [Bool.not_eq_true] at h
    simp [List.filter_cons, h]

/-! ### Claim C4 (aggregator statistics) -/

/-- C4: on a non-empty group whose sorted price list is `s` (any sorted
permutation of the group's prices — sorting is unique), `_calc_stats`
returns `count = n`, `mean` the arithmetic average, `median = s[n/2]`,
`q1 = s[n/4]` and `q3 = s[3n/4]` (integer division) for `n ≥ 4`, and
`q1 = min`, `q3 = max` for `n < 4`; in particular for prices
`[10, 20, 30, 40]` it returns `median = 30`, `q1 = 20`, `q3 = 40`,
`mean = 25`. -/
theorem c4_calc_stats :
    (∀ (items : List SoldListing) (s : List ℚ),
      items ≠ [] →
      s.Perm (items.map SoldListing.price) →
      s.Sorted (· ≤ ·) →
      (_calc_stats items).count = items.length ∧
      (_calc_stats items).mean = s.sum / (items.length : ℚ) ∧
      (_calc_stats items).median = s.getD (items.length / 2) 0 ∧
      (4 ≤ items.length →
        (_calc_stats items).q1 = s.getD (items.length / 4) 0 ∧
        (_calc_stats items).q3 = s.getD (3 * items.length / 4) 0) ∧
      (items.length < 4 →
        (_calc_stats items).q1 = s.headD 0 ∧
        (_calc_stats items).q3 = s.getLastD 0) ∧
      (_calc_stats items).min = s.headD 0 ∧
      (_calc_stats items).max = s.getLastD 0) ∧
    _calc_stats [priced 10, priced 20, priced 30, priced 40] =
      ⟨4, 25, 30, 20, 40, 10, 40⟩ := by
  constructor
  · intro items s _ hperm hsort
    have hps : ((items.map SoldListing.price).insertionSort (· ≤ ·)).Perm
        (items.map SoldListing.price) := List.perm_insertionSort _ _
    have hss : ((items.map SoldListing.price).insertionSort (· ≤ ·)).Sorted
        (· ≤ ·) := List.sorted_insertionSort _ _
    have hs : s = (items.map SoldListing.price).insertionSort (· ≤ ·) :=
      List.eq_of_perm_of_sorted (hperm.trans hps.symm) hsort hss
    have hlen : ((items.map SoldListing.price).insertionSort (· ≤ ·)).length =
        items.length := by
      rw [hps.length_eq, List.length_map]
    subst hs
    refine ⟨?_, ?_, ?_, fun h4 => ?_, fun h4 => ?_, ?_, ?_⟩ <;>
      simp only [_calc_stats, hlen]
    · rw [if_pos h4, if_pos h4]; exact ⟨rfl, rfl⟩
    · rw [if_neg (by omega), if_neg (by omega)]; exact ⟨rfl, rfl⟩
  · norm_num [_calc_stats, priced, List.insertionSort, List.orderedInsert,
      Stats.mk.injEq, List.getD]

/-- C4 witness: the universal part applied to the concrete four-record
group with sorted prices `[10, 20, 30, 40]`. -/
theorem c4_witness :
    (_calc_stats [priced 10, priced 20, priced 30, priced 40]).median =
      ([10, 20, 30, 40] : List ℚ).getD
        (([priced 10, priced 20, priced 30, priced 40] :
          List SoldListing).length / 2) 0 :=
  (c4_calc_stats.1 [priced 10, priced 20, priced 30, priced 40]
    [10, 20, 30, 40] (by decide) (by decide) (by decide)).2.2.1

/-! ### Price-parser lemmas and claims C6, C10 -/

/-- `takeWhile`/`dropWhile` split a list at the first failing element. -/
lemma takeWhile_app {p : Char → Bool} (d : List Char) (x : Char) (r : List Char)
    (hd : ∀ c ∈ d, p c = true) (hx : p x = false) :
    (d ++ x :: r).takeWhile p = d ∧ (d ++ x :: r).dropWhile p = x :: r := by
  induction d with
  | nil => simp [List.takeWhile_cons, List.dropWhile_cons, hx]
  | cons a d ih =>
      have ha := hd a (List.mem_cons_self a d)
      have := ih fun c hc => hd c (List.mem_cons_of_mem a hc)
      simp [List.takeWhile_cons, List.dropWhile_cons, ha, this]

/-- A digit character is not a comma (as a `!=` fact). -/
lemma digit_bne_comma {c : Char} (h : c.isDigit = true) : (c != ',') = true := by
  rcases eq_or_ne c ',' with rfl | hne
  · exact absurd h (by decide)
  · simp [hne]

/-- A digit character is in the `[\d,]` class. -/
lemma digit_isAmt {c : Char} (h : c.isDigit = true) : isAmtChar c = true := by
  simp [isAmtChar, h]

/-- A digit character is not whitespace. -/
lemma digit_not_space {c : Char} (h : c.isDigit = true) : pySpaceChar c = false := by
  cases hc : pySpaceChar c
  · rfl
  · exfalso
    simp only [pySpaceChar, Bool.or_eq_true, beq_iff_eq] at hc
    rcases hc with ((((rfl | rfl) | rfl) | rfl) | rfl) | rfl <;>
      exact absurd h (by decide)

/-- Removing commas twice is the same as removing them once. -/
lemma stripCommas_idem (l : List Char) : stripCommas (stripCommas l) = stripCommas l := by
  rw [stripCommas, stripCommas, List.filter_filter]
  congr 1
  funext a
  exact Bool.and_self _

/-- A comma never survives `stripCommas`. -/
lemma not_comma_mem_stripCommas (l : List Char) : ',' ∉ stripCommas l := by
  intro h
  have := List.of_mem_filter h
  simp at this

/-- `[\d,]+(?:\.\d{1,2})?` matched against digits, a dot and one or two
fractional digits consumes everything. -/
lemma amtFrom_digits_frac (d f : List Char) (hd : d ≠ [])
    (hdd : ∀ c ∈ d, c.isDigit = true) (hfd : ∀ c ∈ f, c.isDigit = true)
    (hlen : f.length = 1 ∨ f.length = 2) :
    amtFrom (d ++ '.' :: f) = some (d ++ '.' :: f) := by
  have ht := takeWhile_app d '.' f (fun c hc => digit_isAmt (hdd c hc)) (by decide)
  have hemp : d.isEmpty = false := by simpa [List.isEmpty_iff] using hd
  rcases hlen with h1 | h2
  · obtain ⟨a, rfl⟩ := List.length_eq_one.1 h1
    have ha := hfd a (List.mem_cons_self a [])
    simp [amtFrom, ht.1, ht.2, hemp, ha]
  · obtain ⟨a, b, rfl⟩ := List.length_eq_two.1 h2
    have ha := hfd a (by simp)
    have hb := hfd b (by simp)
    simp [amtFrom, ht.1, ht.2, hemp, ha, hb]

/-- `float` on a digit string with a dot and fraction. -/
lemma pyFloat_digits_frac (d f : List Char) (hd : d ≠ [])
    (hdd : ∀ c ∈ d, c.isDigit = true) (hfd : ∀ c ∈ f, c.isDigit = true) :
    pyFloat (d ++ '.' :: f) =
      some ((digitsToNat d : ℚ) + (digitsToNat f : ℚ) / (10 ^ f.length : ℚ)) := by
  have ht := takeWhile_app d '.' f (fun c hc => hdd c hc) (by decide)
  have hguard : ((d ++ '.' :: f).all fun c => c.isDigit || c == '.') = true := by
    rw [List.all_eq_true]
    intro c hc
    simp only [List.mem_append, List.mem_cons] at hc
    rcases hc with hc | rfl | hc
    · simp [hdd c hc]
    · simp
    · simp [hfd c hc]
  have hcd : d.count '.' = 0 :=
    List.count_eq_zero.2 fun hmem => absurd (hdd '.' hmem) (by decide)
  have hcf : f.count '.' = 0 :=
    List.count_eq_zero.2 fun hmem => absurd (hfd '.' hmem) (by decide)
  have hany : (d ++ '.' :: f).any Char.isDigit = true := by
    rw [List.any_eq_true]
    obtain ⟨c0, d', rfl⟩ : ∃ c0 d', d = c0 :: d' := by
      cases d with
      | nil => exact absurd rfl hd
      | cons a l => exact ⟨a, l, rfl⟩
    exact ⟨c0, by simp, hdd c0 (List.mem_cons_self c0 d')⟩
  simp [pyFloat, hguard, hcd, hcf, hany, ht.1, ht.2]

/-- `float` on a pure digit string. -/
lemma pyFloat_digits (d : List Char) (hd : d ≠ [])
    (hdd : ∀ c ∈ d, c.isDigit = true) :
    pyFloat d = some (digitsToNat d : ℚ) := by
  have hguard : (d.all fun c => c.isDigit || c == '.') = true := by
    rw [List.all_eq_true]
    intro c hc
    simp [hdd c hc]
  have hcd : d.count '.' = 0 :=
    List.count_eq_zero.2 fun hmem => absurd (hdd '.' hmem) (by decide)
  have hany : d.any Char.isDigit = true := by
    rw [List.any_eq_true]
    obtain ⟨c0, d', rfl⟩ : ∃ c0 d', d = c0 :: d' := by
      cases d with
      | nil => exact absurd rfl hd
      | cons a l => exact ⟨a, l, rfl⟩
    exact ⟨c0, by simp, hdd c0 (List.mem_cons_self c0 d')⟩
  have hdrop : d.dropWhile Char.isDigit = [] :=
    List.dropWhile_eq_nil_iff.2 fun x hx => by simp [hdd x hx]
  simp [pyFloat, hguard, hcd, hany, hdrop]

/-- C6: for every well-formed `<symbol><digits>.<digits>` input whose
symbol is a known currency symbol (fraction of one or two digits, the
shape `PRICE_RE` accepts), `parse_price` returns the numeric value of
the digits and the mapped three-letter code; parsing ignores thousands
separators (it is invariant under comma removal); and an input in which
the pattern does not occur yields the `none` sentinel rather than an
error. -/
theorem c6_parse_price_wellformed :
    (∀ (sym : Char) (code : String) (d f : List Char),
      (sym, code) ∈ CURRENCY_SYMBOLS →
      d ≠ [] → (∀ c ∈ d, c.isDigit = true) →
      (∀ c ∈ f, c.isDigit = true) →
      (f.length = 1 ∨ f.length = 2) →
      parse_price ⟨sym :: (d ++ '.' :: f)⟩ =
        some ((digitsToNat d : ℚ) + (digitsToNat f : ℚ) / (10 ^ f.length : ℚ),
          code)) ∧
    (∀ t : String, parse_price t = parse_price ⟨stripCommas t.data⟩) ∧
    (∀ t : String, priceSearch (stripCommas t.data) = none →
      parse_price t = none) := by
  refine ⟨?_, ?_, ?_⟩
  · intro sym code d f hmem hd hdd hfd hlen
    have hsym : sym = '$' ∧ code = "USD" ∨ sym = '£' ∧ code = "GBP" ∨
        sym = '€' ∧ code = "EUR" := by
      simpa [CURRENCY_SYMBOLS] using hmem
    have hcur : isCur sym = true := by
      rcases hsym with ⟨rfl, rfl⟩ | ⟨rfl, rfl⟩ | ⟨rfl, rfl⟩ <;> rfl
    have hcode : currencyOf sym = code := by
      rcases hsym with ⟨rfl, rfl⟩ | ⟨rfl, rfl⟩ | ⟨rfl, rfl⟩ <;> rfl
    have hstrip : stripCommas (sym :: (d ++ '.' :: f)) = sym :: (d ++ '.' :: f) := by
      rw [stripCommas]
      apply List.filter_eq_self.2
      intro a ha
      simp only [List.mem_cons, List.mem_append] at ha
      rcases ha with rfl | ha | rfl | ha
      · rcases hsym with ⟨rfl, _⟩ | ⟨rfl, _⟩ | ⟨rfl, _⟩ <;> rfl
      · exact digit_bne_comma (hdd a ha)
      · rfl
      · exact digit_bne_comma (hfd a ha)
    obtain ⟨c0, d', rfl⟩ : ∃ c0 d', d = c0 :: d' := by
      cases d with
      | nil => exact absurd rfl hd
      | cons a l => exact ⟨a, l, rfl⟩
    have hc0 := hdd c0 (List.mem_cons_self c0 d')
    have hamt : amtFrom ((c0 :: d') ++ '.' :: f) = some ((c0 :: d') ++ '.' :: f) :=
      amtFrom_digits_frac (c0 :: d') f hd hdd hfd hlen
    have hmatch : priceMatchAt (sym :: ((c0 :: d') ++ '.' :: f)) =
        some (sym, (c0 :: d') ++ '.' :: f) := by
      simp only [List.cons_append] at hamt ⊢
      simp [priceMatchAt, hcur, digit_not_space hc0, hamt]
    have hsearch : priceSearch (sym :: ((c0 :: d') ++ '.' :: f)) =
        some (sym, (c0 :: d') ++ '.' :: f) := by
      rw [priceSearch, hmatch]
    have hfloat := pyFloat_digits_frac (c0 :: d') f hd hdd hfd
    have hdata : (⟨sym :: ((c0 :: d') ++ '.' :: f)⟩ : String).data =
        sym :: ((c0 :: d') ++ '.' :: f) := rfl
    simp only [parse_price, hdata, hstrip, hsearch, hfloat, hcode]
  · intro t
    have hdata : (⟨stripCommas t.data⟩ : String).data = stripCommas t.data := rfl
    simp only [parse_price, hdata, stripCommas_idem]
  · intro t h
    simp only [parse_price, h]

/-- C6 witness: `"$24.99"` parses to amount `24.99` and currency
`"USD"`. -/
theorem c6_witness :
    parse_price ⟨'$' :: (['2', '4'] ++ '.' :: ['9', '9'])⟩ =
      some ((digitsToNat ['2', '4'] : ℚ) +
        (digitsToNat ['9', '9'] : ℚ) / (10 ^ (['9', '9'] : List Char).length : ℚ),
        "USD") :=
  c6_parse_price_wellformed.1 '$' "USD" ['2', '4'] ['9', '9']
    (by decide) (by decide) (by decide) (by decide) (Or.inr rfl)

/-- Whatever `amtFrom` extracts from a comma-free text, `float`
converts successfully. -/
lemma pyFloat_of_amtFrom (cs : List Char) (hnc : ',' ∉ cs) (a : List Char)
    (h : amtFrom cs = some a) : ∃ v, pyFloat a = some v := by
  have hD : ∀ c ∈ cs.takeWhile isAmtChar, c.isDigit = true := by
    intro c hc
    have hcls : isAmtChar c = true := List.mem_takeWhile_imp hc
    have hmem : c ∈ cs := (List.takeWhile_sublist isAmtChar).subset hc
    rcases Bool.or_eq_true_iff.1 hcls with hdig | hcomma
    · exact hdig
    · exact absurd hmem (by rw [beq_iff_eq] at hcomma; rw [hcomma]; exact hnc)
  simp only [amtFrom] at h
  by_cases hemp : (cs.takeWhile isAmtChar).isEmpty = true
  · rw [if_pos hemp] at h
    cases h
  · rw [if_neg hemp] at h
    have hDne : cs.takeWhile isAmtChar ≠ [] := fun e => hemp (by simp [e])
    split at h
    · rename_i rest heq
      match rest, h with
      | d1 :: d2 :: tail, h =>
          simp only [] at h
          by_cases h12 : (d1.isDigit && d2.isDigit) = true
          · rw [if_pos h12] at h
            obtain ⟨h1, h2⟩ := Bool.and_eq_true_iff.1 h12
            rw [Option.some_inj] at h
            subst h
            exact ⟨_, pyFloat_digits_frac _ [d1, d2] hDne hD
              (by intro c hc; rcases List.mem_pair.1 hc with rfl | rfl <;> assumption)⟩
          · rw [if_neg h12] at h
            by_cases h1 : d1.isDigit = true
            · rw [if_pos h1] at h
              rw [Option.some_inj] at h
              subst h
              exact ⟨_, pyFloat_digits_frac _ [d1] hDne hD
                (by intro c hc; rw [List.mem_singleton.1 hc]; exact h1)⟩
            · rw [if_neg h1, Option.some_inj] at h
              subst h
              exact ⟨_, pyFloat_digits _ hDne hD⟩
      | [d1], h =>
          simp only [] at h
          by_cases h1 : d1.isDigit = true
          · rw [if_pos h1, Option.some_inj] at h
            subst h
            exact ⟨_, pyFloat_digits_frac _ [d1] hDne hD
              (by intro c hc; rw [List.mem_singleton.1 hc]; exact h1)⟩
          · rw [if_neg h1, Option.some_inj] at h
            subst h
            exact ⟨_, pyFloat_digits _ hDne hD⟩
      | [], h =>
          simp only [] at h
          rw [Option.some_inj] at h
          subst h
          exact ⟨_, pyFloat_digits _ hDne hD⟩
    · rw [Option.some_inj] at h
      subst h
      exact ⟨_, pyFloat_digits _ hDne hD⟩

/-- A match of `PRICE_RE` at a comma-free position yields a
convertible amount group. -/
lemma pyFloat_of_priceMatchAt (cs : List Char) (hnc : ',' ∉ cs)
    (sym : Char) (amt : List Char) (h : priceMatchAt cs = some (sym, amt)) :
    ∃ v, pyFloat amt = some v := by
  cases cs with
  | nil => exact absurd h (by simp [priceMatchAt])
  | cons c rest =>
      simp only [priceMatchAt] at h
      by_cases hcur : isCur c = true
      · rw [if_pos hcur] at h
        cases rest with
        | nil => cases h
        | cons w r2 =>
            simp only [] at h
            have hnc2 : ',' ∉ r2 := fun hm =>
              hnc (List.mem_cons_of_mem c (List.mem_cons_of_mem w hm))
            have hncr : ',' ∉ w :: r2 := fun hm => hnc (List.mem_cons_of_mem c hm)
            by_cases hsp : pySpaceChar w = true
            · rw [if_pos hsp] at h
              cases ha : amtFrom r2 with
              | none => rw [ha] at h; cases h
              | some a =>
                  rw [ha] at h
                  simp only [Option.some_inj, Prod.mk.injEq] at h
                  obtain ⟨rfl, rfl⟩ := h
                  exact pyFloat_of_amtFrom r2 hnc2 a ha
            · rw [if_neg hsp] at h
              cases ha : amtFrom (w :: r2) with
              | none => rw [ha] at h; cases h
              | some a =>
                  rw [ha] at h
                  simp only [Option.some_inj, Prod.mk.injEq] at h
                  obtain ⟨rfl, rfl⟩ := h
                  exact pyFloat_of_amtFrom (w :: r2) hncr a ha
      · rw [if_neg hcur] at h
        cases h

/-- A successful `PRICE_RE.search` over comma-free text yields a
convertible amount group. -/
lemma pyFloat_of_priceSearch :
    ∀ (cs : List Char), ',' ∉ cs → ∀ (sym : Char) (amt : List Char),
      priceSearch cs = some (sym, amt) → ∃ v, pyFloat amt = some v := by
  intro cs
  induction cs with
  | nil => intro _ sym amt h; exact absurd h (by simp [priceSearch])
  | cons c rest ih =>
      intro hnc sym amt h
      rw [priceSearch] at h
      cases hm : priceMatchAt (c :: rest) with
      | some r =>
          rw [hm] at h
          simp only [Option.some_inj] at h
          subst h
          exact pyFloat_of_priceMatchAt (c :: rest) hnc sym amt hm
      | none =>
          rw [hm] at h
          exact ih (fun hmem => hnc (List.mem_cons_of_mem c hmem)) sym amt h

/-- C10: `parse_price` returns the `none` sentinel iff `PRICE_RE` finds
no match in the comma-stripped input; whenever a match is found, the
numeric conversion of the matched amount always succeeds (the
conversion-failure branch is unreachable, because commas are removed
before matching). -/
theorem c10_parse_price_no_failure :
    ∀ t : String,
      (parse_price t = none ↔ priceSearch (stripCommas t.data) = none) ∧
      (∀ (sym : Char) (amt : List Char),
        priceSearch (stripCommas t.data) = some (sym, amt) →
        ∃ v, pyFloat amt = some v ∧ parse_price t = some (v, currencyOf sym)) := by
  intro t
  have hnc : ',' ∉ stripCommas t.data := not_comma_mem_stripCommas t.data
  cases hs : priceSearch (stripCommas t.data) with
  | none =>
      refine ⟨?_, ?_⟩
      · simp [parse_price, hs]
      · intro sym amt h
        cases h
  | some r =>
      rcases r with ⟨sym0, amt0⟩
      obtain ⟨v, hv⟩ := pyFloat_of_priceSearch _ hnc sym0 amt0 hs
      refine ⟨?_, ?_⟩
      · simp [parse_price, hs, hv]
      · intro sym amt h
        simp only [Option.some_inj, Prod.mk.injEq] at h
        obtain ⟨rfl, rfl⟩ := h
        exact ⟨v, hv, by simp [parse_price, hs, hv]⟩

/-- C10 witness: on `"$1,234.56"` the search succeeds and the
conversion goes through. -/
theorem c10_witness :
    ∃ v, pyFloat ("1234.56".data) = some v ∧
      parse_price "$1,234.56" = some (v, currencyOf '$') :=
  (c10_parse_price_no_failure "$1,234.56").2 '$' ("1234.56".data) (by decide)

/-! ### Date-parser lemmas and claim C7 -/

/-- A date accepted by `datetime` has a four-digit-representable year,
a month of at most 12 and a day of at most 31. -/
lemma mkDate_bounds {a b c y m d : ℕ} (h : mkDate a b c = some (y, m, d)) :
    1 ≤ y ∧ y ≤ 9999 ∧ m ≤ 12 ∧ d ≤ 31 := by
  have hdm : ∀ (yy mm : ℕ), daysInMonth yy mm ≤ 31 := by
    intro yy mm
    unfold daysInMonth
    split
    · split <;> omega
    · split <;> omega
  rw [mkDate] at h
  split at h
  · rename_i hcond
    simp only [Bool.and_eq_true, decide_eq_true_eq] at hcond
    obtain ⟨⟨⟨⟨⟨h1, h2⟩, h3⟩, h4⟩, h5⟩, h6⟩ := hcond
    simp only [Option.some_inj, Prod.mk.injEq] at h
    obtain ⟨rfl, rfl, rfl⟩ := h
    exact ⟨h1, h2, h4, le_trans h6 (hdm a b)⟩
  · cases h

/-- Bounds for the first `strptime` format. -/
lemma fmtMonDayCommaYear_bounds {cs : List Char} {y m d : ℕ}
    (h : fmtMonDayCommaYear cs = some (y, m, d)) :
    1 ≤ y ∧ y ≤ 9999 ∧ m ≤ 12 ∧ d ≤ 31 := by
  simp only [fmtMonDayCommaYear, Option.bind_eq_some] at h
  obtain ⟨mr, _, s1, _, dr, _, r4, _, s2, _, yr, _, hfin⟩ := h
  split at hfin
  · exact mkDate_bounds hfin
  · cases hfin

/-- Bounds for the second `strptime` format. -/
lemma fmtMonDayYear_bounds {cs : List Char} {y m d : ℕ}
    (h : fmtMonDayYear cs = some (y, m, d)) :
    1 ≤ y ∧ y ≤ 9999 ∧ m ≤ 12 ∧ d ≤ 31 := by
  simp only [fmtMonDayYear, Option.bind_eq_some] at h
  obtain ⟨mr, _, s1, _, dr, _, s2, _, yr, _, hfin⟩ := h
  split at hfin
  · exact mkDate_bounds hfin
  · cases hfin

/-- Bounds for the third `strptime` format. -/
lemma fmtDayMonYear_bounds {cs : List Char} {y m d : ℕ}
    (h : fmtDayMonYear cs = some (y, m, d)) :
    1 ≤ y ∧ y ≤ 9999 ∧ m ≤ 12 ∧ d ≤ 31 := by
  simp only [fmtDayMonYear, Option.bind_eq_some] at h
  obtain ⟨dr, _, s1, _, mr, _, s2, _, yr, _, hfin⟩ := h
  split at hfin
  · exact mkDate_bounds hfin
  · cases hfin

/-- Bounds for whatever format the format loop accepts. -/
lemma tryFormats_bounds {cs : List Char} {y m d : ℕ}
    (h : tryFormats cs = some (y, m, d)) :
    1 ≤ y ∧ y ≤ 9999 ∧ m ≤ 12 ∧ d ≤ 31 := by
  rw [tryFormats] at h
  cases h1 : fmtMonDayCommaYear cs with
  | some r =>
      rw [h1, Option.some_inj] at h
      subst h
      exact fmtMonDayCommaYear_bounds h1
  | none =>
      rw [h1] at h
      cases h2 : fmtMonDayYear cs with
      | some r =>
          rw [h2, Option.some_inj] at h
          subst h
          exact fmtMonDayYear_bounds h2
      | none =>
          rw [h2] at h
          exact fmtDayMonYear_bounds h

/-- The last decimal digit always renders as a digit character. -/
lemma digitChar_mod_isDigit (n : ℕ) : (Nat.digitChar (n % 10)).isDigit = true := by
  have h : n % 10 < 10 := Nat.mod_lt _ (by norm_num)
  generalize n % 10 = k at h
  interval_cases k <;> decide

/-- The rendered `%Y-%m-%d` string always has the ISO calendar-date
shape. -/
lemma isoFormat_shape (y m d : ℕ) : isIsoShape (isoFormat y m d) = true := by
  show isIsoShape ⟨pad4 y ++ '-' :: (pad2 m ++ '-' :: pad2 d)⟩ = true
  simp [isIsoShape, pad4, pad2, digitChar_mod_isDigit]

/-- Every run of the pattern loop produces either the empty string or
an ISO-shaped date string. -/
lemma parseDateGo_shape :
    ∀ (ps : List (List Char → Option (List Char))) (cs : List Char),
      parseDateGo ps cs = "" ∨ isIsoShape (parseDateGo ps cs) = true := by
  intro ps
  induction ps with
  | nil => intro _; exact Or.inl rfl
  | cons p rest ih =>
      intro cs
      cases hp : p cs with
      | none =>
          simp only [parseDateGo, hp]
          exact ih cs
      | some g =>
          cases hf : tryFormats (cleanRaw g) with
          | none =>
              simp only [parseDateGo, hp, hf]
              exact ih cs
          | some r =>
              rcases r with ⟨y, m, d⟩
              simp only [parseDateGo, hp, hf]
              exact Or.inr (isoFormat_shape y m d)

/-- If every pattern/format combination fails, the pattern loop falls
through to the empty string. -/
lemma parseDateGo_all_none :
    ∀ (ps : List (List Char → Option (List Char))) (cs : List Char),
      (∀ p ∈ ps, ∀ g, p cs = some g → tryFormats (cleanRaw g) = none) →
      parseDateGo ps cs = "" := by
  intro ps
  induction ps with
  | nil => intro _ _; rfl
  | cons p rest ih =>
      intro cs h
      have hrest : ∀ q ∈ rest, ∀ g, q cs = some g → tryFormats (cleanRaw g) = none :=
        fun q hq g hg => h q (List.mem_cons_of_mem p hq) g hg
      cases hp : p cs with
      | none =>
          simp only [parseDateGo, hp]
          exact ih cs hrest
      | some g =>
          simp only [parseDateGo, hp, h p (List.mem_cons_self p rest) g hp]
          exact ih cs hrest

/-- C7: the date parser maps `"Sold Jan 5, 2024"`, `"Sold 5 Jan 2024"`,
`"5 Jan 2024"` and `"Jan 5 2024"` to `"2024-01-05"`; whenever no
pattern/format combination succeeds (e.g. `"Buy now"`) it returns the
empty string (it never raises — the embedding is total); and every
non-empty result has the ISO 8601 `YYYY-MM-DD` shape (`strftime`'s
`%Y`/`%m`/`%d` are modelled zero-padded, as Python documents them). -/
theorem c7_parse_date :
    parse_date "Sold Jan 5, 2024" = "2024-01-05" ∧
    parse_date "Sold 5 Jan 2024" = "2024-01-05" ∧
    parse_date "5 Jan 2024" = "2024-01-05" ∧
    parse_date "Jan 5 2024" = "2024-01-05" ∧
    parse_date "Buy now" = "" ∧
    (∀ t : String,
      (∀ p ∈ DATE_PATTERNS, ∀ g, p t.data = some g →
        tryFormats (cleanRaw g) = none) →
      parse_date t = "") ∧
    (∀ t : String, parse_date t ≠ "" → isIsoShape (parse_date t) = true) := by
  refine ⟨by decide, by decide, by decide, by decide, by decide, ?_, ?_⟩
  · intro t h
    exact parseDateGo_all_none DATE_PATTERNS t.data h
  · intro t ht
    rcases parseDateGo_shape DATE_PATTERNS t.data with h | h
    · exact absurd h ht
    · exact h

/-- C7 witness: the shape claim applied at a concrete parse. -/
theorem c7_witness : isIsoShape (parse_date "5 Jan 2024") = true :=
  c7_parse_date.2.2.2.2.2.2 "5 Jan 2024" (by decide)

end Retro
